import Mathlib

/-!
Shallow embedding of `src/agents/24250666_agent.py` (class `StudentAgent`),
a participant agent for a Resistance/Avalon-style hidden-role game.

Modelling conventions:
* Python `float` suspicion scores are modelled as `ℚ` (the spec treats them
  as real-valued scores in `[0,1]`).
* The Python `dict` `self.suspicion` is modelled as a total function
  `ℕ → ℚ`; `new_game` initialises every key to `0`, matching the dict whose
  stored keys are exactly the opponents (reads the claims exercise are all
  in-domain).
* The Python `set` `self.known_spies` is modelled as a duplicate-free
  `List ℕ` with membership-guarded insertion.
* Calls into `random` are modelled as explicit inputs: `random.shuffle`
  outcomes become list parameters constrained by `List.Perm` hypotheses,
  and `random.random()` draws become a `ℚ` parameter.
* A Python `ZeroDivisionError` (loyalist `vote` on a single-member team)
  is modelled by returning `none`.
* The fields `name`, `suspected_spies`, `suspected_loyalists` set in
  `__init__` are never read nor written by any other method and are omitted.
-/

namespace Resistance

/-- One record of `self.vote_history`:
`{'mission': ..., 'proposer': ..., 'votes': ...}`. -/
structure VoteRecord where
  mission : List ℕ
  proposer : ℕ
  votes : List Bool
deriving DecidableEq

/-- One record of `self.mission_history`:
`{'mission': ..., 'proposer': ..., 'num_betrayals': ..., 'success': ...}`. -/
structure MissionRecord where
  mission : List ℕ
  proposer : ℕ
  num_betrayals : ℕ
  success : Bool
deriving DecidableEq

/-- The mutable attributes of a `StudentAgent` instance (as reset by
`new_game`). -/
@[ext]
structure AgentState where
  suspicion : ℕ → ℚ
  known_spies : List ℕ
  vote_history : List VoteRecord
  mission_history : List MissionRecord
  successful_missions : ℤ
  failed_missions : ℤ
  number_of_players : ℕ
  player_number : ℕ
  spy_list : List ℕ
  is_spy_player : Bool

/-- `set.add`: insert an element into the set only if absent. -/
def addKnown (l : List ℕ) (p : ℕ) : List ℕ :=
  if p ∈ l then l else l ++ [p]

/-- `new_game(number_of_players, player_number, spy_list)`. -/
def new_game (number_of_players player_number : ℕ) (spy_list : List ℕ) :
    AgentState where
  suspicion := fun _ => 0
  known_spies := []
  vote_history := []
  mission_history := []
  successful_missions := 0
  failed_missions := 0
  number_of_players := number_of_players
  player_number := player_number
  spy_list := spy_list
  is_spy_player := decide (player_number ∈ spy_list)

/-- `is_spy()`: pure read of the role flag. -/
def is_spy (s : AgentState) : Bool :=
  s.is_spy_player

/-- `vote(mission, proposer, betrayals_required)`.
The spy branch's `random.random()` draw is the parameter `r`.
The loyalist branch divides by `len(mission) - 1`; when that is zero
Python raises `ZeroDivisionError`, modelled as `none`. -/
def vote (s : AgentState) (mission : List ℕ) (proposer : ℕ)
    (_betrayals_required : ℕ) (r : ℚ) : Option Bool :=
  if s.is_spy_player then
    if ∃ p ∈ mission, p ∈ s.spy_list then some true
    else some (decide (r < 3/5))
  else
    if proposer ∈ s.known_spies ∨ ∃ p ∈ mission, p ∈ s.known_spies then
      some false
    else if mission.length = 1 then none
    else
      some (decide
        (((mission.filter (fun p => p ≠ s.player_number)).map s.suspicion).sum
            / ((mission.length : ℚ) - 1)
          < 3/10 + (1/10) * (s.failed_missions : ℚ)))

/-- The loop of `vote_outcome` over `enumerate(votes)`:
`if vote and player != self.player_number and player in mission:` bump the
player's suspicion by `0.05`, clamped to `1.0`. -/
def voteBumpLoop (selfIdx : ℕ) (mission : List ℕ) :
    List (ℕ × Bool) → (ℕ → ℚ) → (ℕ → ℚ)
  | [], f => f
  | (p, v) :: rest, f =>
    voteBumpLoop selfIdx mission rest
      (if v = true ∧ p ≠ selfIdx ∧ p ∈ mission then
        Function.update f p (min 1 (f p + 1/20))
      else f)

/-- `vote_outcome(mission, proposer, votes)`. -/
def vote_outcome (s : AgentState) (mission : List ℕ) (proposer : ℕ)
    (votes : List Bool) : AgentState :=
  { s with
    vote_history := s.vote_history ++ [⟨mission, proposer, votes⟩]
    suspicion := voteBumpLoop s.player_number mission votes.enum s.suspicion }

/-- `betray(mission, proposer, betrayals_required)`; the final
`random.random()` draw is the parameter `r`. -/
def betray (s : AgentState) (mission : List ℕ) (_proposer : ℕ)
    (betrayals_required : ℕ) (r : ℚ) : Bool :=
  if s.is_spy_player = false then false
  else if s.failed_missions = 2 ∨ s.successful_missions = 2 then true
  else
    if betrayals_required ≤ (mission.filter (fun p => p ∉ s.spy_list)).length
        ∧ 1 ≤ (mission.dedup.filter (fun p => p ∈ s.spy_list)).length then
      true
    else if r < 3/10 then true
    else false

/-- The failure loop of `mission_outcome` over `potential_spies`:
add `increment`, clamp to `1.0`, and confirm the player as a spy when the
clamped score exceeds `0.7`. -/
def missionFailLoop (increment : ℚ) :
    List ℕ → (ℕ → ℚ) × List ℕ → (ℕ → ℚ) × List ℕ
  | [], acc => acc
  | p :: rest, (susp, known) =>
    missionFailLoop increment rest
      (Function.update susp p (min 1 (susp p + increment)),
       if min 1 (susp p + increment) > 7/10 then addKnown known p else known)

/-- The success loop of `mission_outcome`: decrease by `0.1` (floor `0.0`)
for every non-self, non-confirmed team member. -/
def missionSuccLoop (selfIdx : ℕ) (known : List ℕ) :
    List ℕ → (ℕ → ℚ) → (ℕ → ℚ)
  | [], f => f
  | p :: rest, f =>
    missionSuccLoop selfIdx known rest
      (if p ≠ selfIdx ∧ p ∉ known then
        Function.update f p (max 0 (f p - 1/10))
      else f)

/-- `mission_outcome(mission, proposer, num_betrayals, mission_success)`. -/
def mission_outcome (s : AgentState) (mission : List ℕ) (proposer : ℕ)
    (num_betrayals : ℕ) (mission_success : Bool) : AgentState :=
  let s1 : AgentState :=
    { s with mission_history :=
        s.mission_history ++ [⟨mission, proposer, num_betrayals, mission_success⟩] }
  if s1.is_spy_player then s1
  else if mission_success = false then
    let potential_spies :=
      mission.filter (fun p => p ≠ s1.player_number ∧ p ∉ s1.known_spies)
    if 0 < potential_spies.length then
      let increment : ℚ := (num_betrayals : ℚ) / (potential_spies.length : ℚ)
      let r := missionFailLoop increment potential_spies (s1.suspicion, s1.known_spies)
      { s1 with suspicion := r.1, known_spies := r.2 }
    else s1
  else
    { s1 with suspicion :=
        missionSuccLoop s1.player_number s1.known_spies mission s1.suspicion }

/-- The key order of Python `dict` iteration for `self.suspicion`:
`range(number_of_players)` minus the agent's own index, ascending. -/
def candidates (s : AgentState) : List ℕ :=
  (List.range s.number_of_players).filter (fun p => p ≠ s.player_number)

/-- Stable insertion into a list sorted ascending by `key`: an element
keeps its position before later elements with an equal key, as Python's
stable `sorted(..., key=...)` guarantees. -/
def insertByKey (key : ℕ → ℚ) (x : ℕ) : List ℕ → List ℕ
  | [] => [x]
  | y :: ys => if key x ≤ key y then x :: y :: ys else y :: insertByKey key x ys

/-- Stable sort ascending by `key`, the contract of
`sorted(self.suspicion.keys(), key=lambda x: self.suspicion[x])`. -/
def sortByKey (key : ℕ → ℚ) : List ℕ → List ℕ
  | [] => []
  | x :: xs => insertByKey key x (sortByKey key xs)

/-- `sum(1 for mission in self.mission_history if not mission['success'] and
player in mission['mission'])`. -/
def failedIn (s : AgentState) (p : ℕ) : ℕ :=
  (s.mission_history.filter
    (fun m => m.success = false ∧ p ∈ m.mission)).length

/-- The spy-branch loop of `propose_mission`: walk the shuffled candidates,
appending spies while fewer than `betrayals_required` spies are on the team,
stopping once the team is full.  The accumulator pairs the team with
`spies_in_team`. -/
def spyLoop (spy_list : List ℕ) (team_size betrayals_required : ℕ) :
    List ℕ → List ℕ × ℕ → List ℕ × ℕ
  | [], acc => acc
  | p :: rest, (team, cnt) =>
    if team_size ≤ team.length then (team, cnt)
    else if p ∈ spy_list ∧ cnt < betrayals_required then
      spyLoop spy_list team_size betrayals_required rest (team ++ [p], cnt + 1)
    else spyLoop spy_list team_size betrayals_required rest (team, cnt)

/-- A plain fill loop: append candidates until the team reaches
`team_size` or the list runs out. -/
def fillLoop (team_size : ℕ) : List ℕ → List ℕ → List ℕ
  | [], team => team
  | p :: rest, team =>
    if team_size ≤ team.length then team
    else fillLoop team_size rest (team ++ [p])

/-- The loyalist first pass of `propose_mission`: append low-suspicion
candidates that are neither confirmed spies nor participants of any failed
mission, stopping once the team is full. -/
def loyalLoop1 (s : AgentState) (team_size : ℕ) :
    List ℕ → List ℕ → List ℕ
  | [], team => team
  | p :: rest, team =>
    if team_size ≤ team.length then team
    else if p ∉ s.known_spies ∧ failedIn s p = 0 then
      loyalLoop1 s team_size rest (team ++ [p])
    else loyalLoop1 s team_size rest team

/-- `propose_mission(team_size, betrayals_required)`.
The two `random.shuffle` outcomes of the spy branch are the parameters
`cand` (a permutation of all other players) and `nonSpyCand` (a permutation
of the non-spies among `cand`); the loyalist branch is deterministic and
ignores them. -/
def propose_mission (s : AgentState) (team_size betrayals_required : ℕ)
    (cand nonSpyCand : List ℕ) : List ℕ :=
  if s.is_spy_player then
    let t1 := (spyLoop s.spy_list team_size betrayals_required cand
      ([s.player_number], 1)).1
    (fillLoop team_size nonSpyCand t1).take team_size
  else
    let sorted := sortByKey s.suspicion (candidates s)
    let t1 := loyalLoop1 s team_size sorted [s.player_number]
    let t2 :=
      if t1.length < team_size then
        fillLoop team_size
          (sorted.filter (fun p => p ∉ t1 ∧ p ∉ s.known_spies)) t1
      else t1
    t2.take team_size

/-- `round_outcome(rounds_complete, missions_failed)`. -/
def round_outcome (s : AgentState) (rounds_complete missions_failed : ℤ) :
    AgentState :=
  { s with
    successful_missions := rounds_complete - missions_failed
    failed_missions := missions_failed }

/-- The body of the nested loop of `game_outcome` for one team member `p`
of one recorded mission with success flag `msuccess`. -/
def gameAdjust (isSpy : Bool) (selfIdx : ℕ) (spy_list known : List ℕ)
    (spies_win : Bool) (spies : List ℕ) (msuccess : Bool) (p : ℕ)
    (f : ℕ → ℚ) : ℕ → ℚ :=
  if isSpy then
    if spies_win = true ∧ msuccess = false ∧ p ∈ spy_list ∧ p ≠ selfIdx then
      Function.update f p (max 0 (f p - 3/10))
    else if spies_win = false ∧ msuccess = true ∧ p ∈ spy_list ∧ p ≠ selfIdx then
      Function.update f p (min 1 (f p + 3/10))
    else f
  else
    if spies_win then
      if msuccess = false ∧ p ≠ selfIdx ∧ p ∉ known then
        Function.update f p (min 1 (f p + 3/10))
      else f
    else
      if p ∉ spies ∧ p ≠ selfIdx then
        Function.update f p (max 0 (f p - 2/10))
      else f

/-- The inner loop of `game_outcome` over `mission['mission']`. -/
def gameInnerLoop (isSpy : Bool) (selfIdx : ℕ) (spy_list known : List ℕ)
    (spies_win : Bool) (spies : List ℕ) (msuccess : Bool) :
    List ℕ → (ℕ → ℚ) → (ℕ → ℚ)
  | [], f => f
  | p :: rest, f =>
    gameInnerLoop isSpy selfIdx spy_list known spies_win spies msuccess rest
      (gameAdjust isSpy selfIdx spy_list known spies_win spies msuccess p f)

/-- The outer loop of `game_outcome` over `self.mission_history`. -/
def gameOuterLoop (isSpy : Bool) (selfIdx : ℕ) (spy_list known : List ℕ)
    (spies_win : Bool) (spies : List ℕ) :
    List MissionRecord → (ℕ → ℚ) → (ℕ → ℚ)
  | [], f => f
  | m :: rest, f =>
    gameOuterLoop isSpy selfIdx spy_list known spies_win spies rest
      (gameInnerLoop isSpy selfIdx spy_list known spies_win spies m.success
        m.mission f)

/-- `game_outcome(spies_win, spies)`. -/
def game_outcome (s : AgentState) (spies_win : Bool) (spies : List ℕ) :
    AgentState :=
  { s with suspicion :=
      (gameOuterLoop s.is_spy_player s.player_number s.spy_list s.known_spies
        spies_win spies s.mission_history s.suspicion) }

/-- `is_spy()` paired with its post-call state: the method body is a single
`return self.is_spy_player` with no assignment to `self`. -/
def is_spy_call (s : AgentState) : Bool × AgentState :=
  (is_spy s, s)

/-- `propose_mission(...)` paired with its post-call state: the method body
assigns only the locals `team`, `candidates`, `spies_in_team`,
`non_spies_candidates`, `remaining_candidates` and a *local* named
`failed_missions` (which shadows, not updates, the attribute), never an
attribute of `self`. -/
def propose_mission_call (s : AgentState) (team_size betrayals_required : ℕ)
    (cand nonSpyCand : List ℕ) : List ℕ × AgentState :=
  (propose_mission s team_size betrayals_required cand nonSpyCand, s)

/-- `vote(...)` paired with its post-call state: the method body assigns
only the locals `avg_suspicion` and `suspicion_threshold`, never an
attribute of `self`. -/
def vote_call (s : AgentState) (mission : List ℕ)
    (proposer betrayals_required : ℕ) (r : ℚ) : Option Bool × AgentState :=
  (vote s mission proposer betrayals_required r, s)

/-- `betray(...)` paired with its post-call state: the method body assigns
only the locals `spy_count_in_mission` and `non_spy_count_in_mission`,
never an attribute of `self`. -/
def betray_call (s : AgentState) (mission : List ℕ)
    (proposer betrayals_required : ℕ) (r : ℚ) : Bool × AgentState :=
  (betray s mission proposer betrayals_required r, s)

/-- The `potential_spies` list of the failure branch of `mission_outcome`:
team members that are not self and not already confirmed. -/
def potentialSpies (s : AgentState) (mission : List ℕ) : List ℕ :=
  mission.filter (fun p => p ≠ s.player_number ∧ p ∉ s.known_spies)

/-- One callback invocation of the agent's mutating lifecycle methods. -/
inductive Callback where
  | newGame (number_of_players player_number : ℕ) (spy_list : List ℕ)
  | voteOutcome (mission : List ℕ) (proposer : ℕ) (votes : List Bool)
  | missionOutcome (mission : List ℕ) (proposer num_betrayals : ℕ)
      (success : Bool)
  | roundOutcome (rounds_complete missions_failed : ℤ)
  | gameOutcome (spies_win : Bool) (spies : List ℕ)

/-- The state after one callback. -/
def stepCallback (s : AgentState) : Callback → AgentState
  | .newGame n own spies => new_game n own spies
  | .voteOutcome m pr v => vote_outcome s m pr v
  | .missionOutcome m pr k suc => mission_outcome s m pr k suc
  | .roundOutcome rc mf => round_outcome s rc mf
  | .gameOutcome w spies => game_outcome s w spies

/-- The state after a sequence of callbacks. -/
def runCallbacks (s : AgentState) : List Callback → AgentState
  | [] => s
  | c :: rest => runCallbacks (stepCallback s c) rest

/-- All suspicion scores lie in `[0, 1]`. -/
def SuspicionInRange (s : AgentState) : Prop :=
  ∀ p, 0 ≤ s.suspicion p ∧ s.suspicion p ≤ 1

/-- Two agent states that agree on every stored field except possibly the
infiltrator list handed over by the orchestrator. -/
def AgreeExceptSpyList (s1 s2 : AgentState) : Prop :=
  s1.suspicion = s2.suspicion ∧ s1.known_spies = s2.known_spies ∧
  s1.vote_history = s2.vote_history ∧
  s1.mission_history = s2.mission_history ∧
  s1.successful_missions = s2.successful_missions ∧
  s1.failed_missions = s2.failed_missions ∧
  s1.number_of_players = s2.number_of_players ∧
  s1.player_number = s2.player_number ∧
  s1.is_spy_player = s2.is_spy_player

/-- Two states related by role-blindness: they agree except possibly on
the infiltrator list, and any disagreement is only possible while the
agent is a loyalist. -/
def LoyalAgree (s1 s2 : AgentState) : Prop :=
  AgreeExceptSpyList s1 s2 ∧
    (s1.spy_list = s2.spy_list ∨ s1.is_spy_player = false)

/-- The number of recorded missions whose team contains `p` (each mission
record counted once). -/
def appearances (s : AgentState) (p : ℕ) : ℕ :=
  (s.mission_history.filter (fun m => p ∈ m.mission)).length

/-- A reachable loyalist state: a fresh 5-player game as player 0 followed
by one failed mission `[0,1,2,3,4]` with one betrayal.  Every opponent's
suspicion becomes `0.25` and nobody is confirmed. -/
def quarterState : AgentState :=
  mission_outcome (new_game 5 0 []) [0, 1, 2, 3, 4] 0 1 false

/-- A reachable loyalist state: a fresh 3-player game as player 0 followed
by one failed mission `[0,1]` with one betrayal.  Player 1 reaches
suspicion `1.0` and is confirmed as an infiltrator. -/
def confirmedState : AgentState :=
  mission_outcome (new_game 3 0 []) [0, 1] 0 1 false

theorem addKnown_subset (l : List ℕ) (p : ℕ) : l ⊆ addKnown l p := by
  unfold addKnown
  split
  · exact fun _ h => h
  · exact List.subset_append_left _ _

theorem mem_addKnown (l : List ℕ) (p q : ℕ) :
    q ∈ addKnown l p ↔ q ∈ l ∨ q = p := by
  unfold addKnown
  split
  · rename_i h
    constructor
    · exact fun hq => Or.inl hq
    · rintro (hq | rfl)
      · exact hq
      · exact h
  · simp

theorem missionFailLoop_known_subset (inc : ℚ) (l : List ℕ) (susp : ℕ → ℚ)
    (known : List ℕ) : known ⊆ (missionFailLoop inc l (susp, known)).2 := by
  induction l generalizing susp known with
  | nil => exact fun _ h => h
  | cons p rest ih =>
    simp only [missionFailLoop]
    refine List.Subset.trans ?_ (ih _ _)
    split
    · exact addKnown_subset _ _
    · exact fun _ h => h

theorem clamp_up_range {x inc : ℚ} (hx : 0 ≤ x) (hinc : 0 ≤ inc) :
    0 ≤ min 1 (x + inc) ∧ min 1 (x + inc) ≤ 1 :=
  ⟨le_min (by norm_num) (by linarith), min_le_left _ _⟩

theorem clamp_down_range {x dec : ℚ} (hx : x ≤ 1) (hdec : 0 ≤ dec) :
    0 ≤ max 0 (x - dec) ∧ max 0 (x - dec) ≤ 1 :=
  ⟨le_max_left _ _, max_le (by norm_num) (by linarith)⟩

theorem missionFailLoop_spec (inc : ℚ) (l : List ℕ) (susp : ℕ → ℚ)
    (known : List ℕ) (hnd : l.Nodup) (q : ℕ) :
    ((missionFailLoop inc l (susp, known)).1 q =
      if q ∈ l then min 1 (susp q + inc) else susp q) ∧
    (q ∈ (missionFailLoop inc l (susp, known)).2 ↔
      q ∈ known ∨ (q ∈ l ∧ min 1 (susp q + inc) > 7/10)) := by
  induction l generalizing susp known with
  | nil => simp [missionFailLoop]
  | cons p rest ih =>
    obtain ⟨hp, hrest⟩ := List.nodup_cons.mp hnd
    simp only [missionFailLoop]
    have h := ih (Function.update susp p (min 1 (susp p + inc)))
      (if min 1 (susp p + inc) > 7/10 then addKnown known p else known) hrest
    constructor
    · rw [h.1]
      by_cases hq : q ∈ rest
      · have hqp : q ≠ p := fun e => hp (e ▸ hq)
        simp [hq, hqp, Function.update_noteq hqp]
      · by_cases hqp : q = p
        · subst hqp
          simp [hq, Function.update_same]
        · simp [hq, hqp, Function.update_noteq hqp]
    · rw [h.2]
      by_cases hqp : q = p
      · subst hqp
        have hq : q ∉ rest := hp
        by_cases hc : min 1 (susp q + inc) > 7/10
        · simp [hq, hc, mem_addKnown]
        · simp [hq, hc]
      · have hup : Function.update susp p (min 1 (susp p + inc)) q = susp q :=
          Function.update_noteq hqp _ _
        by_cases hc : min 1 (susp p + inc) > 7/10
        · simp [hc, mem_addKnown, hup, hqp]
        · simp [hc, hup, hqp]

theorem missionFailLoop_range (inc : ℚ) (hinc : 0 ≤ inc) (l : List ℕ)
    (susp : ℕ → ℚ) (known : List ℕ) (h : ∀ p, 0 ≤ susp p ∧ susp p ≤ 1) :
    ∀ p, 0 ≤ (missionFailLoop inc l (susp, known)).1 p ∧
      (missionFailLoop inc l (susp, known)).1 p ≤ 1 := by
  induction l generalizing susp known with
  | nil => exact h
  | cons p rest ih =>
    simp only [missionFailLoop]
    refine ih _ _ fun q => ?_
    by_cases hq : q = p
    · subst hq
      rw [Function.update_same]
      exact clamp_up_range (h q).1 hinc
    · rw [Function.update_noteq hq]
      exact h q

theorem missionSuccLoop_range (selfIdx : ℕ) (known : List ℕ) (l : List ℕ)
    (susp : ℕ → ℚ) (h : ∀ p, 0 ≤ susp p ∧ susp p ≤ 1) :
    ∀ p, 0 ≤ missionSuccLoop selfIdx known l susp p ∧
      missionSuccLoop selfIdx known l susp p ≤ 1 := by
  induction l generalizing susp with
  | nil => exact h
  | cons p rest ih =>
    simp only [missionSuccLoop]
    refine ih _ fun q => ?_
    split
    · by_cases hq : q = p
      · subst hq
        rw [Function.update_same]
        exact clamp_down_range (h q).2 (by norm_num)
      · rw [Function.update_noteq hq]
        exact h q
    · exact h q

theorem voteBumpLoop_range (selfIdx : ℕ) (mission : List ℕ)
    (l : List (ℕ × Bool)) (susp : ℕ → ℚ)
    (h : ∀ p, 0 ≤ susp p ∧ susp p ≤ 1) :
    ∀ p, 0 ≤ voteBumpLoop selfIdx mission l susp p ∧
      voteBumpLoop selfIdx mission l susp p ≤ 1 := by
  induction l generalizing susp with
  | nil => exact h
  | cons pv rest ih =>
    obtain ⟨p, v⟩ := pv
    simp only [voteBumpLoop]
    refine ih _ fun q => ?_
    split
    · by_cases hq : q = p
      · subst hq
        rw [Function.update_same]
        exact clamp_up_range (h q).1 (by norm_num)
      · rw [Function.update_noteq hq]
        exact h q
    · exact h q

theorem gameAdjust_range (isSpy : Bool) (selfIdx : ℕ)
    (spy_list known : List ℕ) (w : Bool) (spies : List ℕ) (msuccess : Bool)
    (p : ℕ) (susp : ℕ → ℚ) (h : ∀ q, 0 ≤ susp q ∧ susp q ≤ 1) :
    ∀ q, 0 ≤ gameAdjust isSpy selfIdx spy_list known w spies msuccess p susp q ∧
      gameAdjust isSpy selfIdx spy_list known w spies msuccess p susp q ≤ 1 := by
  intro q
  unfold gameAdjust
  have hup : ∀ v : ℚ, 0 ≤ v → v ≤ 1 →
      0 ≤ Function.update susp p v q ∧ Function.update susp p v q ≤ 1 := by
    intro v h0 h1
    by_cases hq : q = p
    · subst hq
      rw [Function.update_same]
      exact ⟨h0, h1⟩
    · rw [Function.update_noteq hq]
      exact h q
  split
  · split
    · exact hup _ (clamp_down_range (h p).2 (by norm_num)).1
        (clamp_down_range (h p).2 (by norm_num)).2
    · split
      · exact hup _ (clamp_up_range (h p).1 (by norm_num)).1
          (clamp_up_range (h p).1 (by norm_num)).2
      · exact h q
  · split
    · split
      · exact hup _ (clamp_up_range (h p).1 (by norm_num)).1
          (clamp_up_range (h p).1 (by norm_num)).2
      · exact h q
    · split
      · exact hup _ (clamp_down_range (h p).2 (by norm_num)).1
          (clamp_down_range (h p).2 (by norm_num)).2
      · exact h q

theorem gameInnerLoop_range (isSpy : Bool) (selfIdx : ℕ)
    (spy_list known : List ℕ) (w : Bool) (spies : List ℕ) (msuccess : Bool)
    (l : List ℕ) (susp : ℕ → ℚ) (h : ∀ q, 0 ≤ susp q ∧ susp q ≤ 1) :
    ∀ q, 0 ≤ gameInnerLoop isSpy selfIdx spy_list known w spies msuccess l susp q ∧
      gameInnerLoop isSpy selfIdx spy_list known w spies msuccess l susp q ≤ 1 := by
  induction l generalizing susp with
  | nil => exact h
  | cons p rest ih =>
    simp only [gameInnerLoop]
    exact ih _ (gameAdjust_range _ _ _ _ _ _ _ _ _ h)

theorem gameOuterLoop_range (isSpy : Bool) (selfIdx : ℕ)
    (spy_list known : List ℕ) (w : Bool) (spies : List ℕ)
    (hist : List MissionRecord) (susp : ℕ → ℚ)
    (h : ∀ q, 0 ≤ susp q ∧ susp q ≤ 1) :
    ∀ q, 0 ≤ gameOuterLoop isSpy selfIdx spy_list known w spies hist susp q ∧
      gameOuterLoop isSpy selfIdx spy_list known w spies hist susp q ≤ 1 := by
  induction hist generalizing susp with
  | nil => exact h
  | cons m rest ih =>
    simp only [gameOuterLoop]
    exact ih _ (gameInnerLoop_range _ _ _ _ _ _ _ _ _ h)

/-- C4: every lifecycle callback (`new_game`, `vote_outcome`,
`mission_outcome`, `round_outcome`, `game_outcome`) preserves the invariant
that every suspicion score lies in `[0, 1]`: each update path clamps before
storing. -/
theorem C4_suspicion_invariant (s : AgentState) (c : Callback)
    (h : SuspicionInRange s) : SuspicionInRange (stepCallback s c) := by
  cases c with
  | newGame n own spies =>
    intro p
    constructor <;> norm_num [stepCallback, new_game]
  | voteOutcome m pr v =>
    exact voteBumpLoop_range _ _ _ _ h
  | missionOutcome m pr k suc =>
    simp only [stepCallback, mission_outcome]
    split
    · exact h
    · split
      · split
        · refine missionFailLoop_range _ ?_ _ _ _ h
          positivity
        · exact h
      · exact missionSuccLoop_range _ _ _ _ h
  | roundOutcome rc mf =>
    exact h
  | gameOutcome w spies =>
    exact gameOuterLoop_range _ _ _ _ _ _ _ _ h

/-- Witness for C4 at a concrete input: one vote-outcome nudge stores
`0.05` for the approving team member, and the range invariant holds
afterwards. -/
theorem C4_suspicion_invariant_witness :
    (stepCallback (new_game 3 0 [])
      (Callback.voteOutcome [1] 0 [true, true])).suspicion 1 = 1/20 ∧
    SuspicionInRange (stepCallback (new_game 3 0 [])
      (Callback.voteOutcome [1] 0 [true, true])) := by
  constructor
  · norm_num [stepCallback, vote_outcome, new_game, voteBumpLoop,
      List.enum, Function.update]
  · exact C4_suspicion_invariant _ _ fun p => by norm_num [new_game]

theorem mission_outcome_loyal_fail (s : AgentState) (mission : List ℕ)
    (proposer num_betrayals : ℕ) (hloyal : s.is_spy_player = false) :
    (mission_outcome s mission proposer num_betrayals false).suspicion
        = (if 0 < (potentialSpies s mission).length then
            (missionFailLoop
              ((num_betrayals : ℚ) / ((potentialSpies s mission).length : ℚ))
              (potentialSpies s mission) (s.suspicion, s.known_spies)).1
          else s.suspicion) ∧
    (mission_outcome s mission proposer num_betrayals false).known_spies
        = (if 0 < (potentialSpies s mission).length then
            (missionFailLoop
              ((num_betrayals : ℚ) / ((potentialSpies s mission).length : ℚ))
              (potentialSpies s mission) (s.suspicion, s.known_spies)).2
          else s.known_spies) := by
  unfold mission_outcome
  simp only [hloyal, potentialSpies, Bool.false_eq_true, if_false, if_true]
  by_cases h : 0 < (List.filter
      (fun p => decide (p ≠ s.player_number ∧ p ∉ s.known_spies)) mission).length
  · rw [if_pos h, if_pos h, if_pos h]
    refine ⟨?_, ?_⟩ <;> rfl
  · rw [if_neg h, if_neg h, if_neg h]
    refine ⟨?_, ?_⟩ <;> rfl

/-- C5: for a loyalist, `mission_outcome(team, proposer, betrayalCount,
success=false)` adds `betrayalCount / |E|` to the suspicion of every member
of `E` (the non-self unconfirmed team members), clamps to `1.0`, and
confirms every member of `E` whose clamped score strictly exceeds `0.7`;
when `E` is empty nothing changes (no division fault). -/
theorem C5_mission_outcome_failure (s : AgentState) (mission : List ℕ)
    (proposer num_betrayals : ℕ)
    (hloyal : s.is_spy_player = false) (hnd : mission.Nodup) :
    (potentialSpies s mission = [] →
      (mission_outcome s mission proposer num_betrayals false).suspicion
          = s.suspicion ∧
      (mission_outcome s mission proposer num_betrayals false).known_spies
          = s.known_spies) ∧
    (potentialSpies s mission ≠ [] →
      (∀ p ∈ potentialSpies s mission,
        (mission_outcome s mission proposer num_betrayals false).suspicion p
          = min 1 (s.suspicion p
              + (num_betrayals : ℚ) / ((potentialSpies s mission).length : ℚ))) ∧
      (∀ p, p ∉ potentialSpies s mission →
        (mission_outcome s mission proposer num_betrayals false).suspicion p
          = s.suspicion p) ∧
      (∀ q,
        q ∈ (mission_outcome s mission proposer num_betrayals false).known_spies
          ↔ q ∈ s.known_spies ∨ (q ∈ potentialSpies s mission ∧
              min 1 (s.suspicion q
                + (num_betrayals : ℚ) / ((potentialSpies s mission).length : ℚ))
                > 7/10))) := by
  have hndps : (potentialSpies s mission).Nodup := hnd.filter _
  obtain ⟨hsusp, hknown⟩ :=
    mission_outcome_loyal_fail s mission proposer num_betrayals hloyal
  constructor
  · intro hempty
    have hlen : ¬ 0 < (potentialSpies s mission).length := by
      simp [hempty]
    rw [hsusp, hknown, if_neg hlen, if_neg hlen]
    exact ⟨rfl, rfl⟩
  · intro hne
    have hpos : 0 < (potentialSpies s mission).length :=
      List.length_pos.mpr hne
    rw [hsusp, hknown, if_pos hpos, if_pos hpos]
    refine ⟨fun p hp => ?_, fun p hp => ?_, fun q => ?_⟩
    · rw [(missionFailLoop_spec _ _ _ _ hndps p).1, if_pos hp]
    · rw [(missionFailLoop_spec _ _ _ _ hndps p).1, if_neg hp]
    · exact (missionFailLoop_spec _ _ _ _ hndps q).2

/-- Witness for C5, Scenario B: loyalist, `mission_outcome(team=[0,1,2],
proposer=0, betrayalCount=1, success=false)` raises `suspicion[1]` and
`suspicion[2]` by `0.5` each. -/
theorem C5_mission_outcome_failure_witness :
    (mission_outcome (new_game 3 0 []) [0, 1, 2] 0 1 false).suspicion 1
        = (new_game 3 0 []).suspicion 1 + 1/2 ∧
    (mission_outcome (new_game 3 0 []) [0, 1, 2] 0 1 false).suspicion 2
        = (new_game 3 0 []).suspicion 2 + 1/2 := by
  have h := (C5_mission_outcome_failure (new_game 3 0 []) [0, 1, 2] 0 1
    (by decide) (by decide)).2 (by decide)
  have hps : potentialSpies (new_game 3 0 []) [0, 1, 2] = [1, 2] := by decide
  have h1 := h.1 1 (by rw [hps]; simp)
  have h2 := h.1 2 (by rw [hps]; simp)
  rw [hps] at h1 h2
  norm_num [new_game] at h1 h2 ⊢
  exact ⟨h1, h2⟩

theorem length_filter_ne_add_one (a : ℕ) (l : List ℕ) (hnd : l.Nodup)
    (ha : a ∈ l) :
    (l.filter (fun p => p ≠ a)).length + 1 = l.length := by
  induction l with
  | nil => cases ha
  | cons x xs ih =>
    obtain ⟨hx, hxs⟩ := List.nodup_cons.mp hnd
    rcases List.mem_cons.mp ha with h | h
    · subst h
      have hxs' : xs.filter (fun p => p ≠ a) = xs := by
        refine List.filter_eq_self.mpr fun p hp => ?_
        simp only [decide_eq_true_eq]
        exact fun e => hx (e ▸ hp)
      simp [hxs']
      exact fun p hp e => hx (e ▸ hp)
    · have hxa : x ≠ a := fun e => hx (e ▸ h)
      simp only [List.filter_cons, hxa, decide_True, if_true, List.length_cons]
      rw [← ih hxs h]
      simp [hxa]

/-- C3 (amended): for a loyalist and a duplicate-free team that contains
self together with at least one other member, `vote` returns `false`
whenever the proposer or a team member is in `known_infiltrators`, and
otherwise approves iff the arithmetic mean of the suspicion scores of the
team members excluding self is strictly below `0.3 + 0.1 *
failed_missions`.  (The original claim also covered teams without self;
there the code divides by `len(team) - 1` instead of the number of
non-self members, falsifying the mean-threshold equivalence — see the
counterexample.) -/
theorem C3_loyalist_vote (s : AgentState) (mission : List ℕ)
    (proposer betrayals_required : ℕ) (r : ℚ)
    (hloyal : s.is_spy_player = false)
    (hself : s.player_number ∈ mission)
    (hnd : mission.Nodup)
    (hne : ∃ p ∈ mission, p ≠ s.player_number) :
    ((proposer ∈ s.known_spies ∨ ∃ p ∈ mission, p ∈ s.known_spies) →
      vote s mission proposer betrayals_required r = some false) ∧
    (proposer ∉ s.known_spies → (∀ p ∈ mission, p ∉ s.known_spies) →
      vote s mission proposer betrayals_required r
        = some (decide
            ((((mission.filter (fun p => p ≠ s.player_number)).map
                s.suspicion).sum
              / (((mission.filter (fun p => p ≠ s.player_number)).length : ℚ)))
            < 3/10 + (1/10) * (s.failed_missions : ℚ)))) := by
  have hflen : (mission.filter (fun p => p ≠ s.player_number)).length + 1
      = mission.length := length_filter_ne_add_one _ _ hnd hself
  have hlen1 : ¬ mission.length = 1 := by
    obtain ⟨q, hq, hqne⟩ := hne
    have hmem : q ∈ mission.filter (fun p => p ≠ s.player_number) := by
      simp [List.mem_filter, hq, hqne]
    have hpos : 0 < (mission.filter (fun p => p ≠ s.player_number)).length :=
      List.length_pos.mpr (List.ne_nil_of_mem hmem)
    omega
  constructor
  · intro hcond
    simp only [vote, hloyal, Bool.false_eq_true, if_false]
    rw [if_pos hcond]
  · intro hp hm
    have hcond : ¬(proposer ∈ s.known_spies ∨ ∃ p ∈ mission, p ∈ s.known_spies) := by
      push_neg
      exact ⟨hp, hm⟩
    simp only [vote, hloyal, Bool.false_eq_true, if_false]
    rw [if_neg hcond, if_neg hlen1]
    have hden : ((mission.length : ℚ) - 1)
        = ((mission.filter (fun p => p ≠ s.player_number)).length : ℚ) := by
      rw [← hflen]
      push_cast
      ring
    rw [hden]

/-- C3 counterexample: in the reachable loyalist state `quarterState`
(every opponent at suspicion `0.25`, nobody confirmed, zero failed-mission
counter), take the team `[1, 2]` not containing self (player 0): the mean
suspicion of the team members excluding self is `0.25`, strictly below the
threshold `0.3`, and no known-infiltrator condition holds, so the claim
demands approval — yet `vote` divides by `len(team) - 1 = 1` and returns
`false`. -/
theorem C3_counterexample :
    vote quarterState [1, 2] 3 1 0 = some false ∧
    (quarterState.suspicion 1 + quarterState.suspicion 2) / 2
      < 3/10 + (1/10) * (quarterState.failed_missions : ℚ) ∧
    quarterState.player_number = 0 ∧
    quarterState.known_spies = [] := by
  norm_num [vote, quarterState, mission_outcome, new_game, missionFailLoop,
    addKnown, Function.update]

/-- Witness for C3 (amended) at a concrete input: a fresh loyalist
approves the team `[0, 1]` (mean suspicion `0` below threshold `0.3`). -/
theorem C3_loyalist_vote_witness :
    vote (new_game 3 0 []) [0, 1] 2 1 0 = some true := by
  have h := (C3_loyalist_vote (new_game 3 0 []) [0, 1] 2 1 0 (by decide)
    (by decide) (by decide) ⟨1, by decide, by decide⟩).2 (by decide)
    (by decide)
  rw [h]
  norm_num [new_game]

/-- C2: a loyalist with no known infiltrators, voting on the team
`[ownIndex]` (members excluding self empty), is specified to approve; the
code instead divides by `len(mission) - 1 = 0` and raises
`ZeroDivisionError` (modelled as `none`).  Failing input:
`new_game(5, 0, [])` followed by `vote([0], 1, 1)`. -/
theorem C2_vote_own_team_faults :
    vote (new_game 5 0 []) [0] 1 1 0 = none := by
  simp [vote, new_game]

/-- C6: `betray` returns `false` for every loyalist regardless of inputs,
state and random draw; for an infiltrator it returns `true` unconditionally
whenever `failed_missions == 2` or `successful_missions == 2`, and also
whenever the team contains at least one infiltrator and at least
`betrayals_required` non-infiltrators — all independently of the random
draw `r`. -/
theorem C6_betray_policy (s : AgentState) (mission : List ℕ)
    (proposer betrayals_required : ℕ) (r : ℚ) :
    (s.is_spy_player = false →
      betray s mission proposer betrayals_required r = false) ∧
    (s.is_spy_player = true →
      (s.failed_missions = 2 ∨ s.successful_missions = 2) →
      betray s mission proposer betrayals_required r = true) ∧
    (s.is_spy_player = true →
      1 ≤ (mission.dedup.filter (fun p => p ∈ s.spy_list)).length →
      betrayals_required ≤ (mission.filter (fun p => p ∉ s.spy_list)).length →
      betray s mission proposer betrayals_required r = true) := by
  refine ⟨fun h => by simp [betray, h], fun h hcrit => by simp [betray, h, hcrit],
    fun h hspy hnon => ?_⟩
  by_cases hcrit : s.failed_missions = 2 ∨ s.successful_missions = 2
  · simp [betray, h, hcrit]
  · simp [betray, h, hcrit, hspy]
    exact Or.inl (by simpa using hnon)

/-- Witness for C6 at a concrete input: a fresh loyalist never betrays. -/
theorem C6_betray_policy_witness :
    betray (new_game 3 0 []) [0, 1] 0 1 0 = false :=
  (C6_betray_policy (new_game 3 0 []) [0, 1] 0 1 0).1 (by decide)

/-- C9: the decision queries `is_spy`, `propose_mission`, `vote` and
`betray` never modify any agent field — the post-call state of each equals
the pre-call state (in the source their bodies assign only local
variables). -/
theorem C9_decision_queries_pure (s : AgentState) (mission : List ℕ)
    (team_size betrayals_required proposer : ℕ) (cand nonSpyCand : List ℕ)
    (r : ℚ) :
    (is_spy_call s).2 = s ∧
    (propose_mission_call s team_size betrayals_required cand nonSpyCand).2 = s ∧
    (vote_call s mission proposer betrayals_required r).2 = s ∧
    (betray_call s mission proposer betrayals_required r).2 = s :=
  ⟨rfl, rfl, rfl, rfl⟩

/-- C10: within a game, `known_spies` grows only inside the failure branch
of `mission_outcome`: `vote_outcome`, `game_outcome`, `round_outcome` and
the success branch of `mission_outcome` leave it untouched (even when the
suspicion they store exceeds `0.7`), and the failure branch only ever
extends it. -/
theorem C10_known_spies_growth (s : AgentState) (mission : List ℕ)
    (proposer : ℕ) (votes : List Bool) (num_betrayals : ℕ) (w : Bool)
    (spies : List ℕ) (rc mf : ℤ) :
    (vote_outcome s mission proposer votes).known_spies = s.known_spies ∧
    (game_outcome s w spies).known_spies = s.known_spies ∧
    (round_outcome s rc mf).known_spies = s.known_spies ∧
    (mission_outcome s mission proposer num_betrayals true).known_spies
      = s.known_spies ∧
    s.known_spies
      ⊆ (mission_outcome s mission proposer num_betrayals false).known_spies := by
  refine ⟨rfl, rfl, rfl, ?_, ?_⟩
  · simp only [mission_outcome]
    cases h : s.is_spy_player <;> simp
  · simp only [mission_outcome]
    cases h : s.is_spy_player <;> simp
    split
    · exact missionFailLoop_known_subset _ _ _ _
    · exact fun _ h => h

theorem gameAdjust_apply_ne (isSpy : Bool) (selfIdx : ℕ)
    (spy_list known : List ℕ) (w : Bool) (spies : List ℕ) (msuccess : Bool)
    (x q : ℕ) (f : ℕ → ℚ) (hq : q ≠ x) :
    gameAdjust isSpy selfIdx spy_list known w spies msuccess x f q = f q := by
  unfold gameAdjust
  split
  · split
    · exact Function.update_noteq hq _ _
    · split
      · exact Function.update_noteq hq _ _
      · rfl
  · split
    · split
      · exact Function.update_noteq hq _ _
      · rfl
    · split
      · exact Function.update_noteq hq _ _
      · rfl

theorem gameAdjust_loyal_win_apply (selfIdx : ℕ) (spy_list known : List ℕ)
    (spies : List ℕ) (msuccess : Bool) (x : ℕ) (f : ℕ → ℚ) :
    gameAdjust false selfIdx spy_list known true spies msuccess x f x
      = if msuccess = false ∧ x ≠ selfIdx ∧ x ∉ known then
          min 1 (f x + 3/10)
        else f x := by
  unfold gameAdjust
  simp only [Bool.false_eq_true, if_false, if_true]
  split
  · rw [Function.update_same]
  · rfl

theorem gameAdjust_loyal_lose_apply (selfIdx : ℕ) (spy_list known : List ℕ)
    (spies : List ℕ) (msuccess : Bool) (x : ℕ) (f : ℕ → ℚ) :
    gameAdjust false selfIdx spy_list known false spies msuccess x f x
      = if x ∉ spies ∧ x ≠ selfIdx then max 0 (f x - 2/10) else f x := by
  unfold gameAdjust
  simp only [Bool.false_eq_true, if_false]
  split
  · rw [Function.update_same]
  · rfl

theorem gameInnerLoop_loyal_win (selfIdx : ℕ) (spy_list known : List ℕ)
    (spies : List ℕ) (msuccess : Bool) (l : List ℕ) (p : ℕ) :
    ∀ f : ℕ → ℚ, l.Nodup →
      gameInnerLoop false selfIdx spy_list known true spies msuccess l f p
        = if msuccess = false ∧ p ≠ selfIdx ∧ p ∉ known ∧ p ∈ l then
            min 1 (f p + 3/10)
          else f p := by
  induction l with
  | nil => intro f _; simp [gameInnerLoop]
  | cons x xs ih =>
    intro f hnd
    obtain ⟨hx, hxs⟩ := List.nodup_cons.mp hnd
    simp only [gameInnerLoop]
    rw [ih _ hxs]
    by_cases hpx : p = x
    · subst hpx
      rw [if_neg (fun hc => hx hc.2.2.2), gameAdjust_loyal_win_apply]
      by_cases hc : msuccess = false ∧ p ≠ selfIdx ∧ p ∉ known
      · rw [if_pos hc, if_pos ⟨hc.1, hc.2.1, hc.2.2, List.mem_cons_self p xs⟩]
      · rw [if_neg hc, if_neg (fun hcc => hc ⟨hcc.1, hcc.2.1, hcc.2.2.1⟩)]
    · rw [gameAdjust_apply_ne _ _ _ _ _ _ _ _ _ _ hpx]
      by_cases hc : msuccess = false ∧ p ≠ selfIdx ∧ p ∉ known ∧ p ∈ xs
      · rw [if_pos hc,
          if_pos ⟨hc.1, hc.2.1, hc.2.2.1, List.mem_cons_of_mem x hc.2.2.2⟩]
      · rw [if_neg hc, if_neg (fun hcc => hc ⟨hcc.1, hcc.2.1, hcc.2.2.1,
          (List.mem_cons.mp hcc.2.2.2).resolve_left hpx⟩)]

theorem gameInnerLoop_loyal_lose (selfIdx : ℕ) (spy_list known : List ℕ)
    (spies : List ℕ) (msuccess : Bool) (l : List ℕ) (p : ℕ) :
    ∀ f : ℕ → ℚ, l.Nodup →
      gameInnerLoop false selfIdx spy_list known false spies msuccess l f p
        = if p ∉ spies ∧ p ≠ selfIdx ∧ p ∈ l then
            max 0 (f p - 2/10)
          else f p := by
  induction l with
  | nil => intro f _; simp [gameInnerLoop]
  | cons x xs ih =>
    intro f hnd
    obtain ⟨hx, hxs⟩ := List.nodup_cons.mp hnd
    simp only [gameInnerLoop]
    rw [ih _ hxs]
    by_cases hpx : p = x
    · subst hpx
      rw [if_neg (fun hc => hx hc.2.2), gameAdjust_loyal_lose_apply]
      by_cases hc : p ∉ spies ∧ p ≠ selfIdx
      · rw [if_pos hc, if_pos ⟨hc.1, hc.2, List.mem_cons_self p xs⟩]
      · rw [if_neg hc, if_neg (fun hcc => hc ⟨hcc.1, hcc.2.1⟩)]
    · rw [gameAdjust_apply_ne _ _ _ _ _ _ _ _ _ _ hpx]
      by_cases hc : p ∉ spies ∧ p ≠ selfIdx ∧ p ∈ xs
      · rw [if_pos hc, if_pos ⟨hc.1, hc.2.1, List.mem_cons_of_mem x hc.2.2⟩]
      · rw [if_neg hc, if_neg (fun hcc => hc ⟨hcc.1, hcc.2.1,
          (List.mem_cons.mp hcc.2.2).resolve_left hpx⟩)]

theorem gameOuterLoop_loyal_win (selfIdx : ℕ) (spy_list known : List ℕ)
    (spies : List ℕ) (hist : List MissionRecord) (p : ℕ)
    (hpself : p ≠ selfIdx) (hpknown : p ∉ known) :
    ∀ f : ℕ → ℚ, (∀ m ∈ hist, m.mission.Nodup) →
      f p + (3/10) * ((hist.filter
          (fun m => m.success = false ∧ p ∈ m.mission)).length : ℚ) ≤ 1 →
      gameOuterLoop false selfIdx spy_list known true spies hist f p
        = f p + (3/10) * ((hist.filter
            (fun m => m.success = false ∧ p ∈ m.mission)).length : ℚ) := by
  induction hist with
  | nil => intro f _ _; simp [gameOuterLoop]
  | cons m rest ih =>
    intro f hnd hb
    simp only [gameOuterLoop]
    have hinner := gameInnerLoop_loyal_win selfIdx spy_list known spies
      m.success m.mission p f (hnd m (List.mem_cons_self m rest))
    have hrest : ∀ m' ∈ rest, m'.mission.Nodup :=
      fun m' hm' => hnd m' (List.mem_cons_of_mem m hm')
    by_cases hc : m.success = false ∧ p ∈ m.mission
    · have hcnt : ((m :: rest).filter
          (fun m' => m'.success = false ∧ p ∈ m'.mission)).length
            = (rest.filter
              (fun m' => m'.success = false ∧ p ∈ m'.mission)).length + 1 := by
        simp [List.filter_cons, hc]
      rw [hcnt] at hb ⊢
      have hcnt0 : (0:ℚ) ≤ ((rest.filter
          (fun m' => m'.success = false ∧ p ∈ m'.mission)).length : ℚ) := by
        positivity
      have hgp : gameInnerLoop false selfIdx spy_list known true spies
          m.success m.mission f p = f p + 3/10 := by
        rw [hinner, if_pos ⟨hc.1, hpself, hpknown, hc.2⟩]
        have : f p + 3/10 ≤ 1 := by
          push_cast at hb
          nlinarith
        simp [min_eq_right this]
      rw [ih _ hrest (by rw [hgp]; push_cast at hb ⊢; linarith), hgp]
      push_cast
      ring
    · have hcnt : ((m :: rest).filter
          (fun m' => m'.success = false ∧ p ∈ m'.mission)).length
            = (rest.filter
              (fun m' => m'.success = false ∧ p ∈ m'.mission)).length := by
        simp [List.filter_cons, hc]
      rw [hcnt] at hb ⊢
      have hgp : gameInnerLoop false selfIdx spy_list known true spies
          m.success m.mission f p = f p := by
        rw [hinner, if_neg (fun hcc => hc ⟨hcc.1, hcc.2.2.2⟩)]
      rw [ih _ hrest (by rw [hgp]; exact hb), hgp]

theorem gameOuterLoop_loyal_lose (selfIdx : ℕ) (spy_list known : List ℕ)
    (spies : List ℕ) (hist : List MissionRecord) (p : ℕ)
    (hpself : p ≠ selfIdx) (hpspies : p ∉ spies) :
    ∀ f : ℕ → ℚ, (∀ m ∈ hist, m.mission.Nodup) →
      0 ≤ f p - (2/10) * ((hist.filter
          (fun m => p ∈ m.mission)).length : ℚ) →
      gameOuterLoop false selfIdx spy_list known false spies hist f p
        = f p - (2/10) * ((hist.filter
            (fun m => p ∈ m.mission)).length : ℚ) := by
  induction hist with
  | nil => intro f _ _; simp [gameOuterLoop]
  | cons m rest ih =>
    intro f hnd hb
    simp only [gameOuterLoop]
    have hinner := gameInnerLoop_loyal_lose selfIdx spy_list known spies
      m.success m.mission p f (hnd m (List.mem_cons_self m rest))
    have hrest : ∀ m' ∈ rest, m'.mission.Nodup :=
      fun m' hm' => hnd m' (List.mem_cons_of_mem m hm')
    by_cases hc : p ∈ m.mission
    · have hcnt : ((m :: rest).filter (fun m' => p ∈ m'.mission)).length
          = (rest.filter (fun m' => p ∈ m'.mission)).length + 1 := by
        simp [List.filter_cons, hc]
      rw [hcnt] at hb ⊢
      have hgp : gameInnerLoop false selfIdx spy_list known false spies
          m.success m.mission f p = f p - 2/10 := by
        rw [hinner, if_pos ⟨hpspies, hpself, hc⟩]
        have hcnt0 : (0:ℚ) ≤ ((rest.filter
            (fun m' => p ∈ m'.mission)).length : ℚ) := by positivity
        have : 0 ≤ f p - 2/10 := by
          push_cast at hb
          nlinarith
        simp [max_eq_right this]
      rw [ih _ hrest (by rw [hgp]; push_cast at hb ⊢; linarith), hgp]
      push_cast
      ring
    · have hcnt : ((m :: rest).filter (fun m' => p ∈ m'.mission)).length
          = (rest.filter (fun m' => p ∈ m'.mission)).length := by
        simp [List.filter_cons, hc]
      rw [hcnt] at hb ⊢
      have hgp : gameInnerLoop false selfIdx spy_list known false spies
          m.success m.mission f p = f p := by
        rw [hinner, if_neg (fun hcc => hc hcc.2.2)]
      rw [ih _ hrest (by rw [hgp]; exact hb), hgp]

theorem gameOuterLoop_loyal_win_skip (selfIdx : ℕ) (spy_list known : List ℕ)
    (spies : List ℕ) (hist : List MissionRecord) (p : ℕ)
    (hp : p = selfIdx ∨ p ∈ known) :
    ∀ f : ℕ → ℚ, (∀ m ∈ hist, m.mission.Nodup) →
      gameOuterLoop false selfIdx spy_list known true spies hist f p = f p := by
  induction hist with
  | nil => intro f _; simp [gameOuterLoop]
  | cons m rest ih =>
    intro f hnd
    simp only [gameOuterLoop]
    have hinner := gameInnerLoop_loyal_win selfIdx spy_list known spies
      m.success m.mission p f (hnd m (List.mem_cons_self m rest))
    have hgp : gameInnerLoop false selfIdx spy_list known true spies
        m.success m.mission f p = f p := by
      rw [hinner, if_neg ?_]
      rintro ⟨_, hps, hpk, _⟩
      rcases hp with h | h
      · exact hps h
      · exact hpk h
    rw [ih _ (fun m' hm' => hnd m' (List.mem_cons_of_mem m hm')), hgp]

theorem gameOuterLoop_loyal_lose_skip (selfIdx : ℕ) (spy_list known : List ℕ)
    (spies : List ℕ) (hist : List MissionRecord) (p : ℕ)
    (hp : p = selfIdx ∨ p ∈ spies) :
    ∀ f : ℕ → ℚ, (∀ m ∈ hist, m.mission.Nodup) →
      gameOuterLoop false selfIdx spy_list known false spies hist f p = f p := by
  induction hist with
  | nil => intro f _; simp [gameOuterLoop]
  | cons m rest ih =>
    intro f hnd
    simp only [gameOuterLoop]
    have hinner := gameInnerLoop_loyal_lose selfIdx spy_list known spies
      m.success m.mission p f (hnd m (List.mem_cons_self m rest))
    have hgp : gameInnerLoop false selfIdx spy_list known false spies
        m.success m.mission f p = f p := by
      rw [hinner, if_neg ?_]
      rintro ⟨hps, hpk, _⟩
      rcases hp with h | h
      · exact hpk h
      · exact hps h
    rw [ih _ (fun m' hm' => hnd m' (List.mem_cons_of_mem m hm')), hgp]

/-- C8: for a loyalist, `game_outcome` revises the whole mission history:
when infiltrators won it adds `0.3` per *failed* recorded mission
appearance to every non-self non-confirmed member (clamped, here expressed
with the no-clamping bound), and when loyalists won it subtracts `0.2` per
recorded mission appearance from every non-self member outside the true
infiltrator set (floored, here with the no-flooring bound) — once per
mission appearance; all other participants are untouched. -/
theorem C8_game_outcome_loyalist (s : AgentState) (spies : List ℕ) (p : ℕ)
    (hloyal : s.is_spy_player = false)
    (hnd : ∀ m ∈ s.mission_history, m.mission.Nodup) :
    (p ≠ s.player_number → p ∉ s.known_spies →
      s.suspicion p + (3/10) * (failedIn s p : ℚ) ≤ 1 →
      (game_outcome s true spies).suspicion p
        = s.suspicion p + (3/10) * (failedIn s p : ℚ)) ∧
    ((p = s.player_number ∨ p ∈ s.known_spies) →
      (game_outcome s true spies).suspicion p = s.suspicion p) ∧
    (p ≠ s.player_number → p ∉ spies →
      0 ≤ s.suspicion p - (2/10) * (appearances s p : ℚ) →
      (game_outcome s false spies).suspicion p
        = s.suspicion p - (2/10) * (appearances s p : ℚ)) ∧
    ((p = s.player_number ∨ p ∈ spies) →
      (game_outcome s false spies).suspicion p = s.suspicion p) := by
  refine ⟨fun h1 h2 h3 => ?_, fun h1 => ?_, fun h1 h2 h3 => ?_, fun h1 => ?_⟩
  · show gameOuterLoop s.is_spy_player s.player_number s.spy_list
      s.known_spies true spies s.mission_history s.suspicion p = _
    rw [hloyal]
    exact gameOuterLoop_loyal_win _ _ _ _ _ _ h1 h2 _ hnd h3
  · show gameOuterLoop s.is_spy_player s.player_number s.spy_list
      s.known_spies true spies s.mission_history s.suspicion p = _
    rw [hloyal]
    exact gameOuterLoop_loyal_win_skip _ _ _ _ _ _ h1 _ hnd
  · show gameOuterLoop s.is_spy_player s.player_number s.spy_list
      s.known_spies false spies s.mission_history s.suspicion p = _
    rw [hloyal]
    exact gameOuterLoop_loyal_lose _ _ _ _ _ _ h1 h2 _ hnd h3
  · show gameOuterLoop s.is_spy_player s.player_number s.spy_list
      s.known_spies false spies s.mission_history s.suspicion p = _
    rw [hloyal]
    exact gameOuterLoop_loyal_lose_skip _ _ _ _ _ _ h1 _ hnd

/-- Witness for C8 at a concrete input: in `quarterState` (one recorded
failed mission `[0,1,2,3,4]`, every opponent at suspicion `0.25`), after a
loyalist win with true infiltrator set `[]`, player 1 is exonerated once:
`0.25 - 0.2 = 0.05`. -/
theorem C8_game_outcome_loyalist_witness :
    (game_outcome quarterState false []).suspicion 1 = 1/20 := by
  have h := (C8_game_outcome_loyalist quarterState [] 1 (by decide)
    (by decide)).2.2.1 (by decide) (by decide)
    (by norm_num [quarterState, mission_outcome, new_game, missionFailLoop,
      addKnown, Function.update, appearances])
  rw [h]
  norm_num [quarterState, mission_outcome, new_game, missionFailLoop,
    addKnown, Function.update, appearances]

theorem eq_of_agree_of_spy_list_eq {s1 s2 : AgentState}
    (h : AgreeExceptSpyList s1 s2) (hl : s1.spy_list = s2.spy_list) :
    s1 = s2 := by
  obtain ⟨h1, h2, h3, h4, h5, h6, h7, h8, h9⟩ := h
  exact AgentState.ext h1 h2 h3 h4 h5 h6 h7 h8 hl h9

theorem mission_outcome_is_spy (s : AgentState) (m : List ℕ) (pr k : ℕ)
    (suc : Bool) :
    (mission_outcome s m pr k suc).is_spy_player = s.is_spy_player := by
  unfold mission_outcome
  by_cases h1 : s.is_spy_player = true <;>
    by_cases h2 : suc = false <;>
      by_cases h3 : 0 < (m.filter (fun p =>
          !decide (p = s.player_number) && !decide (p ∈ s.known_spies))).length <;>
        simp [h1, h2, h3]

theorem mission_outcome_spy_list_eq (s : AgentState) (m : List ℕ) (pr k : ℕ)
    (suc : Bool) :
    (mission_outcome s m pr k suc).spy_list = s.spy_list := by
  unfold mission_outcome
  by_cases h1 : s.is_spy_player = true <;>
    by_cases h2 : suc = false <;>
      by_cases h3 : 0 < (m.filter (fun p =>
          !decide (p = s.player_number) && !decide (p ∈ s.known_spies))).length <;>
        simp [h1, h2, h3]

theorem candidates_agree {s1 s2 : AgentState} (h : AgreeExceptSpyList s1 s2) :
    candidates s1 = candidates s2 := by
  unfold candidates
  rw [h.2.2.2.2.2.2.1, h.2.2.2.2.2.2.2.1]

theorem failedIn_agree {s1 s2 : AgentState} (h : AgreeExceptSpyList s1 s2)
    (p : ℕ) : failedIn s1 p = failedIn s2 p := by
  unfold failedIn
  rw [h.2.2.2.1]

theorem loyalLoop1_agree {s1 s2 : AgentState} (h : AgreeExceptSpyList s1 s2)
    (ts : ℕ) (lst : List ℕ) :
    ∀ team, loyalLoop1 s1 ts lst team = loyalLoop1 s2 ts lst team := by
  induction lst with
  | nil => intro team; rfl
  | cons p rest ih =>
    intro team
    simp only [loyalLoop1, h.2.1, failedIn_agree h, ih]

theorem vote_agree {s1 s2 : AgentState} (h : AgreeExceptSpyList s1 s2)
    (hspy : s1.is_spy_player = false) (mission : List ℕ)
    (proposer betrayals_required : ℕ) (r : ℚ) :
    vote s1 mission proposer betrayals_required r
      = vote s2 mission proposer betrayals_required r := by
  have hspy2 : s2.is_spy_player = false := h.2.2.2.2.2.2.2.2 ▸ hspy
  simp only [vote, hspy, hspy2, Bool.false_eq_true, if_false,
    h.1, h.2.1, h.2.2.2.2.2.1, h.2.2.2.2.2.2.2.1]

theorem propose_mission_agree {s1 s2 : AgentState}
    (h : AgreeExceptSpyList s1 s2) (hspy : s1.is_spy_player = false)
    (team_size betrayals_required : ℕ) (cand nonSpyCand : List ℕ) :
    propose_mission s1 team_size betrayals_required cand nonSpyCand
      = propose_mission s2 team_size betrayals_required cand nonSpyCand := by
  have hspy2 : s2.is_spy_player = false := h.2.2.2.2.2.2.2.2 ▸ hspy
  simp only [propose_mission, hspy, hspy2, Bool.false_eq_true, if_false,
    candidates_agree h, h.1, h.2.1, h.2.2.2.2.2.2.2.1, loyalLoop1_agree h]

theorem vote_outcome_agree {s1 s2 : AgentState} (h : AgreeExceptSpyList s1 s2)
    (mission : List ℕ) (proposer : ℕ) (votes : List Bool) :
    AgreeExceptSpyList (vote_outcome s1 mission proposer votes)
      (vote_outcome s2 mission proposer votes) := by
  obtain ⟨h1, h2, h3, h4, h5, h6, h7, h8, h9⟩ := h
  exact ⟨by simp only [vote_outcome, h1, h8], h2, by simp only [vote_outcome, h3],
    h4, h5, h6, h7, h8, h9⟩

theorem round_outcome_agree {s1 s2 : AgentState} (h : AgreeExceptSpyList s1 s2)
    (rc mf : ℤ) :
    AgreeExceptSpyList (round_outcome s1 rc mf) (round_outcome s2 rc mf) := by
  obtain ⟨h1, h2, h3, h4, h5, h6, h7, h8, h9⟩ := h
  exact ⟨h1, h2, h3, h4, rfl, rfl, h7, h8, h9⟩

theorem mission_outcome_agree {s1 s2 : AgentState}
    (h : AgreeExceptSpyList s1 s2) (mission : List ℕ) (proposer k : ℕ)
    (suc : Bool) :
    AgreeExceptSpyList (mission_outcome s1 mission proposer k suc)
      (mission_outcome s2 mission proposer k suc) := by
  obtain ⟨h1, h2, h3, h4, h5, h6, h7, h8, h9⟩ := h
  unfold AgreeExceptSpyList mission_outcome
  simp only [h1, h2, h4, h8, h9]
  by_cases hb : s2.is_spy_player
  · simp [hb, h3, h5, h6, h7]
  · by_cases hsuc : suc = false
    · by_cases hlen : 0 < (mission.filter (fun p =>
          !decide (p = s2.player_number) && !decide (p ∈ s2.known_spies))).length
      · simp [hb, hsuc, hlen, h3, h5, h6, h7]
      · simp [hb, hsuc, hlen, h3, h5, h6, h7]
    · simp [hb, hsuc, h3, h5, h6, h7]

theorem gameAdjust_false_spy_list (selfIdx : ℕ) (sl1 sl2 known : List ℕ)
    (w : Bool) (spies : List ℕ) (msuccess : Bool) (x : ℕ) (f : ℕ → ℚ) :
    gameAdjust false selfIdx sl1 known w spies msuccess x f
      = gameAdjust false selfIdx sl2 known w spies msuccess x f := by
  unfold gameAdjust
  simp [Bool.false_eq_true]

theorem gameInnerLoop_false_spy_list (selfIdx : ℕ) (sl1 sl2 known : List ℕ)
    (w : Bool) (spies : List ℕ) (msuccess : Bool) (l : List ℕ) :
    ∀ f, gameInnerLoop false selfIdx sl1 known w spies msuccess l f
      = gameInnerLoop false selfIdx sl2 known w spies msuccess l f := by
  induction l with
  | nil => intro f; rfl
  | cons x xs ih =>
    intro f
    simp only [gameInnerLoop, gameAdjust_false_spy_list selfIdx sl1 sl2, ih]

theorem gameOuterLoop_false_spy_list (selfIdx : ℕ) (sl1 sl2 known : List ℕ)
    (w : Bool) (spies : List ℕ) (hist : List MissionRecord) :
    ∀ f, gameOuterLoop false selfIdx sl1 known w spies hist f
      = gameOuterLoop false selfIdx sl2 known w spies hist f := by
  induction hist with
  | nil => intro f; rfl
  | cons m rest ih =>
    intro f
    simp only [gameOuterLoop, gameInnerLoop_false_spy_list selfIdx sl1 sl2, ih]

theorem game_outcome_agree {s1 s2 : AgentState}
    (h : AgreeExceptSpyList s1 s2) (hspy : s1.is_spy_player = false)
    (w : Bool) (spies : List ℕ) :
    AgreeExceptSpyList (game_outcome s1 w spies) (game_outcome s2 w spies) := by
  obtain ⟨h1, h2, h3, h4, h5, h6, h7, h8, h9⟩ := h
  have hspy2 : s2.is_spy_player = false := h9 ▸ hspy
  refine ⟨?_, h2, h3, h4, h5, h6, h7, h8, h9⟩
  show gameOuterLoop s1.is_spy_player s1.player_number s1.spy_list
      s1.known_spies w spies s1.mission_history s1.suspicion
    = gameOuterLoop s2.is_spy_player s2.player_number s2.spy_list
      s2.known_spies w spies s2.mission_history s2.suspicion
  rw [hspy, hspy2, h1, h2, h4, h8,
    gameOuterLoop_false_spy_list s2.player_number s1.spy_list s2.spy_list]

theorem stepCallback_loyalAgree {s1 s2 : AgentState} (h : LoyalAgree s1 s2)
    (c : Callback) : LoyalAgree (stepCallback s1 c) (stepCallback s2 c) := by
  obtain ⟨ha, hd⟩ := h
  rcases hd with hl | hspy
  · rw [eq_of_agree_of_spy_list_eq ha hl]
    exact ⟨⟨rfl, rfl, rfl, rfl, rfl, rfl, rfl, rfl, rfl⟩, Or.inl rfl⟩
  · cases c with
    | newGame n own spies =>
      exact ⟨⟨rfl, rfl, rfl, rfl, rfl, rfl, rfl, rfl, rfl⟩, Or.inl rfl⟩
    | voteOutcome m pr v =>
      exact ⟨vote_outcome_agree ha m pr v, Or.inr hspy⟩
    | missionOutcome m pr k suc =>
      refine ⟨mission_outcome_agree ha m pr k suc, Or.inr ?_⟩
      show (mission_outcome s1 m pr k suc).is_spy_player = false
      rw [mission_outcome_is_spy]
      exact hspy
    | roundOutcome rc mf =>
      exact ⟨round_outcome_agree ha rc mf, Or.inr hspy⟩
    | gameOutcome w spies =>
      exact ⟨game_outcome_agree ha hspy w spies, Or.inr hspy⟩

theorem runCallbacks_loyalAgree {s1 s2 : AgentState} (h : LoyalAgree s1 s2)
    (t : List Callback) :
    LoyalAgree (runCallbacks s1 t) (runCallbacks s2 t) := by
  induction t generalizing s1 s2 with
  | nil => exact h
  | cons c rest ih => exact ih (stepCallback_loyalAgree h c)

/-- C7: role-blindness for a loyalist.  For any two infiltrator lists not
containing the agent's own index handed to `new_game`, the same subsequent
callback sequence and the same random draws yield the same suspicion map
and the same `propose_mission` and `vote` outputs: a loyalist never reads
the infiltrator list. -/
theorem C7_role_blindness (n own : ℕ) (L1 L2 : List ℕ)
    (h1 : own ∉ L1) (h2 : own ∉ L2) (t : List Callback)
    (team_size betrayals_required : ℕ) (cand nonSpyCand mission : List ℕ)
    (proposer betrayals_required2 : ℕ) (r : ℚ) :
    (runCallbacks (new_game n own L1) t).suspicion
      = (runCallbacks (new_game n own L2) t).suspicion ∧
    propose_mission (runCallbacks (new_game n own L1) t) team_size
        betrayals_required cand nonSpyCand
      = propose_mission (runCallbacks (new_game n own L2) t) team_size
        betrayals_required cand nonSpyCand ∧
    vote (runCallbacks (new_game n own L1) t) mission proposer
        betrayals_required2 r
      = vote (runCallbacks (new_game n own L2) t) mission proposer
        betrayals_required2 r := by
  have hinit : LoyalAgree (new_game n own L1) (new_game n own L2) := by
    refine ⟨⟨rfl, rfl, rfl, rfl, rfl, rfl, rfl, rfl, ?_⟩, Or.inr ?_⟩
    · show decide (own ∈ L1) = decide (own ∈ L2)
      rw [decide_eq_false h1, decide_eq_false h2]
    · exact decide_eq_false h1
  obtain ⟨ha, hd⟩ := runCallbacks_loyalAgree hinit t
  rcases hd with hl | hspy
  · rw [eq_of_agree_of_spy_list_eq ha hl]
    exact ⟨rfl, rfl, rfl⟩
  · exact ⟨ha.1, propose_mission_agree ha hspy _ _ _ _,
      vote_agree ha hspy _ _ _ _⟩

/-- Witness for C7 at a concrete input: as a loyalist in a 3-player game,
receiving the true infiltrator list `[1]` versus the scrambled list `[2]`
leaves the suspicion map and both decision outputs identical after a
failed-mission callback. -/
theorem C7_role_blindness_witness :
    (runCallbacks (new_game 3 0 [1])
        [Callback.missionOutcome [0, 1] 0 1 false]).suspicion
      = (runCallbacks (new_game 3 0 [2])
        [Callback.missionOutcome [0, 1] 0 1 false]).suspicion ∧
    propose_mission (runCallbacks (new_game 3 0 [1])
        [Callback.missionOutcome [0, 1] 0 1 false]) 2 1 [1, 2] [2]
      = propose_mission (runCallbacks (new_game 3 0 [2])
        [Callback.missionOutcome [0, 1] 0 1 false]) 2 1 [1, 2] [2] ∧
    vote (runCallbacks (new_game 3 0 [1])
        [Callback.missionOutcome [0, 1] 0 1 false]) [0, 2] 1 1 0
      = vote (runCallbacks (new_game 3 0 [2])
        [Callback.missionOutcome [0, 1] 0 1 false]) [0, 2] 1 1 0 :=
  C7_role_blindness 3 0 [1] [2] (by decide) (by decide)
    [Callback.missionOutcome [0, 1] 0 1 false] 2 1 [1, 2] [2] [0, 2] 1 1 0

theorem insertByKey_perm (key : ℕ → ℚ) (x : ℕ) (l : List ℕ) :
    List.Perm (insertByKey key x l) (x :: l) := by
  induction l with
  | nil => exact List.Perm.refl _
  | cons y ys ih =>
    unfold insertByKey
    split
    · exact List.Perm.refl _
    · exact (ih.cons y).trans (List.Perm.swap x y ys)

theorem sortByKey_perm (key : ℕ → ℚ) (l : List ℕ) :
    List.Perm (sortByKey key l) l := by
  induction l with
  | nil => exact List.Perm.refl _
  | cons x xs ih =>
    exact (insertByKey_perm key x (sortByKey key xs)).trans (ih.cons x)

theorem fillLoop_spec (ts : ℕ) (l : List ℕ) :
    ∀ team, team.length ≤ ts →
      ∃ B, fillLoop ts l team = team ++ B ∧ B.Sublist l ∧
        (fillLoop ts l team).length = min ts (team.length + l.length) := by
  induction l with
  | nil =>
    intro team hle
    refine ⟨[], by simp [fillLoop], List.nil_sublist _, ?_⟩
    simp [fillLoop]
    omega
  | cons p rest ih =>
    intro team hle
    simp only [fillLoop]
    by_cases hfull : ts ≤ team.length
    · rw [if_pos hfull]
      refine ⟨[], by simp, List.nil_sublist _, ?_⟩
      simp
      omega
    · rw [if_neg hfull]
      obtain ⟨B, hB, hsub, hlen⟩ := ih (team ++ [p]) (by simp; omega)
      refine ⟨p :: B, ?_, hsub.cons₂ p, ?_⟩
      · rw [hB, List.append_assoc]
        rfl
      · rw [hlen]
        simp
        omega

theorem spyLoop_decomp (sl : List ℕ) (ts br : ℕ) (l : List ℕ) :
    ∀ team cnt, ∃ A, (spyLoop sl ts br l (team, cnt)).1 = team ++ A ∧
      A.Sublist l ∧ ∀ x ∈ A, x ∈ sl := by
  induction l with
  | nil =>
    intro team cnt
    exact ⟨[], by simp [spyLoop], List.nil_sublist _, by simp⟩
  | cons p rest ih =>
    intro team cnt
    simp only [spyLoop]
    by_cases hfull : ts ≤ team.length
    · rw [if_pos hfull]
      exact ⟨[], by simp, List.nil_sublist _, by simp⟩
    · rw [if_neg hfull]
      by_cases hc : p ∈ sl ∧ cnt < br
      · rw [if_pos hc]
        obtain ⟨A, hA, hsub, hmem⟩ := ih (team ++ [p]) (cnt + 1)
        refine ⟨p :: A, ?_, hsub.cons₂ p, ?_⟩
        · rw [hA, List.append_assoc]
          rfl
        · intro x hx
          rcases List.mem_cons.mp hx with rfl | hx
          · exact hc.1
          · exact hmem x hx
      · rw [if_neg hc]
        obtain ⟨A, hA, hsub, hmem⟩ := ih team cnt
        exact ⟨A, hA, hsub.cons p, hmem⟩

theorem spyLoop_length_le (sl : List ℕ) (ts br : ℕ) (l : List ℕ) :
    ∀ team cnt, (spyLoop sl ts br l (team, cnt)).1.length
      ≤ max team.length ts := by
  induction l with
  | nil =>
    intro team cnt
    simp [spyLoop]
  | cons p rest ih =>
    intro team cnt
    simp only [spyLoop]
    by_cases hfull : ts ≤ team.length
    · rw [if_pos hfull]
      exact le_max_left _ _
    · rw [if_neg hfull]
      by_cases hc : p ∈ sl ∧ cnt < br
      · rw [if_pos hc]
        refine (ih (team ++ [p]) (cnt + 1)).trans ?_
        simp
        omega
      · rw [if_neg hc]
        exact ih team cnt

theorem spyLoop_length_lower (sl : List ℕ) (ts br : ℕ) (l : List ℕ) :
    ∀ team cnt,
      min ts (team.length
          + min (br - cnt) ((l.filter (fun p => p ∈ sl)).length))
        ≤ (spyLoop sl ts br l (team, cnt)).1.length := by
  induction l with
  | nil =>
    intro team cnt
    simp only [spyLoop, List.filter_nil, List.length_nil]
    omega
  | cons p rest ih =>
    intro team cnt
    simp only [spyLoop]
    by_cases hfull : ts ≤ team.length
    · rw [if_pos hfull]
      simp only
      omega
    · rw [if_neg hfull]
      by_cases hc : p ∈ sl ∧ cnt < br
      · rw [if_pos hc]
        have h := ih (team ++ [p]) (cnt + 1)
        rw [List.filter_cons_of_pos (by simp [hc.1])]
        simp only [List.length_append, List.length_singleton,
          List.length_cons] at h ⊢
        have hcnt : cnt < br := hc.2
        omega
      · rw [if_neg hc]
        have h := ih team cnt
        by_cases hp : p ∈ sl
        · have hbr : ¬ cnt < br := fun hlt => hc ⟨hp, hlt⟩
          rw [List.filter_cons_of_pos (by simp [hp])]
          simp only [List.length_cons] at h ⊢
          omega
        · rw [List.filter_cons_of_neg (by simp [hp])]
          exact h

theorem loyalLoop1_decomp (s : AgentState) (ts : ℕ) (l : List ℕ) :
    ∀ team, ∃ A, loyalLoop1 s ts l team = team ++ A ∧
      A.Sublist l ∧ ∀ x ∈ A, x ∉ s.known_spies := by
  induction l with
  | nil =>
    intro team
    exact ⟨[], by simp [loyalLoop1], List.nil_sublist _, by simp⟩
  | cons p rest ih =>
    intro team
    simp only [loyalLoop1]
    by_cases hfull : ts ≤ team.length
    · rw [if_pos hfull]
      exact ⟨[], by simp, List.nil_sublist _, by simp⟩
    · rw [if_neg hfull]
      by_cases hc : p ∉ s.known_spies ∧ failedIn s p = 0
      · rw [if_pos hc]
        obtain ⟨A, hA, hsub, hmem⟩ := ih (team ++ [p])
        refine ⟨p :: A, ?_, hsub.cons₂ p, ?_⟩
        · rw [hA, List.append_assoc]
          rfl
        · intro x hx
          rcases List.mem_cons.mp hx with rfl | hx
          · exact hc.1
          · exact hmem x hx
      · rw [if_neg hc]
        obtain ⟨A, hA, hsub, hmem⟩ := ih team
        exact ⟨A, hA, hsub.cons p, hmem⟩

theorem loyalLoop1_length_le (s : AgentState) (ts : ℕ) (l : List ℕ) :
    ∀ team, (loyalLoop1 s ts l team).length ≤ max team.length ts := by
  induction l with
  | nil =>
    intro team
    simp [loyalLoop1]
  | cons p rest ih =>
    intro team
    simp only [loyalLoop1]
    by_cases hfull : ts ≤ team.length
    · rw [if_pos hfull]
      exact le_max_left _ _
    · rw [if_neg hfull]
      by_cases hc : p ∉ s.known_spies ∧ failedIn s p = 0
      · rw [if_pos hc]
        refine (ih (team ++ [p])).trans ?_
        simp
        omega
      · rw [if_neg hc]
        exact ih team

theorem candidates_nodup (s : AgentState) : (candidates s).Nodup :=
  (List.nodup_range _).filter _

theorem self_not_mem_candidates (s : AgentState) :
    s.player_number ∉ candidates s := by
  simp [candidates]

theorem mem_take_head (a : ℕ) (l : List ℕ) (ts : ℕ) (hts : 1 ≤ ts) :
    a ∈ (a :: l).take ts := by
  obtain ⟨n, rfl⟩ := Nat.exists_eq_add_of_le hts
  rw [Nat.add_comm, List.take_succ_cons]
  exact List.mem_cons_self a _

theorem propose_loyal_props (s : AgentState) (ts br : ℕ)
    (cand nsc : List ℕ) (hts : 1 ≤ ts) (hspy : s.is_spy_player = false) :
    (propose_mission s ts br cand nsc).Nodup ∧
    s.player_number ∈ propose_mission s ts br cand nsc ∧
    (propose_mission s ts br cand nsc).length ≤ ts ∧
    (ts ≤ 1 + ((candidates s).filter (fun p => p ∉ s.known_spies)).length →
      (propose_mission s ts br cand nsc).length = ts) := by
  have hpe : propose_mission s ts br cand nsc
      = (if (loyalLoop1 s ts (sortByKey s.suspicion (candidates s))
            [s.player_number]).length < ts then
          fillLoop ts ((sortByKey s.suspicion (candidates s)).filter
            (fun p => p ∉ loyalLoop1 s ts (sortByKey s.suspicion (candidates s))
              [s.player_number] ∧ p ∉ s.known_spies))
            (loyalLoop1 s ts (sortByKey s.suspicion (candidates s))
              [s.player_number])
         else loyalLoop1 s ts (sortByKey s.suspicion (candidates s))
            [s.player_number]).take ts := by
    simp only [propose_mission, hspy, Bool.false_eq_true, if_false]
  have hcp : List.Perm (sortByKey s.suspicion (candidates s)) (candidates s) :=
    sortByKey_perm _ _
  have hcnd : (sortByKey s.suspicion (candidates s)).Nodup :=
    hcp.nodup_iff.mpr (candidates_nodup s)
  have hcself : s.player_number ∉ sortByKey s.suspicion (candidates s) :=
    fun h => self_not_mem_candidates s (hcp.mem_iff.mp h)
  obtain ⟨A, hA, hAsub, hAkn⟩ := loyalLoop1_decomp s ts
    (sortByKey s.suspicion (candidates s)) [s.player_number]
  have hAc : ∀ x ∈ A, x ∈ sortByKey s.suspicion (candidates s) :=
    fun x hx => hAsub.subset hx
  have hAnd : A.Nodup := hAsub.nodup hcnd
  have hAself : s.player_number ∉ A := fun h => hcself (hAc _ h)
  have ht1 : loyalLoop1 s ts (sortByKey s.suspicion (candidates s))
      [s.player_number] = s.player_number :: A := hA
  have ht1nd : (s.player_number :: A).Nodup := List.nodup_cons.mpr ⟨hAself, hAnd⟩
  have ht1le : (s.player_number :: A).length ≤ ts := by
    have h := loyalLoop1_length_le s ts
      (sortByKey s.suspicion (candidates s)) [s.player_number]
    rw [ht1] at h
    simpa using h.trans_eq (by simp [Nat.max_eq_right hts])
  by_cases hcase : (s.player_number :: A).length < ts
  · rw [hpe, ht1, if_pos hcase]
    obtain ⟨B, hB, hBsub, hBlen⟩ := fillLoop_spec ts
      ((sortByKey s.suspicion (candidates s)).filter
        (fun p => p ∉ s.player_number :: A ∧ p ∉ s.known_spies))
      (s.player_number :: A) ht1le
    have hFnd : ((sortByKey s.suspicion (candidates s)).filter
        (fun p => p ∉ s.player_number :: A ∧ p ∉ s.known_spies)).Nodup :=
      hcnd.filter _
    have hBF : ∀ x ∈ B, x ∈ (sortByKey s.suspicion (candidates s)) ∧
        x ∉ s.player_number :: A ∧ x ∉ s.known_spies := by
      intro x hx
      have := hBsub.subset hx
      simpa using List.mem_filter.mp this
    have hdisj : List.Disjoint (s.player_number :: A) B :=
      fun a ha hb => (hBF a hb).2.1 ha
    have ht2nd : ((s.player_number :: A) ++ B).Nodup :=
      ht1nd.append (hBsub.nodup hFnd) hdisj
    have ht2head : (s.player_number :: A) ++ B
        = s.player_number :: (A ++ B) := rfl
    rw [hB]
    refine ⟨ht2nd.sublist (List.take_sublist _ _), ?_, ?_, ?_⟩
    · rw [ht2head]
      exact mem_take_head _ _ _ hts
    · simp [List.length_take]
    · intro hsuff
      have hDsub : ((sortByKey s.suspicion (candidates s)).filter
            (fun p => p ∉ s.known_spies))
          ⊆ A ++ ((sortByKey s.suspicion (candidates s)).filter
            (fun p => p ∉ s.player_number :: A ∧ p ∉ s.known_spies)) := by
        intro x hx
        obtain ⟨hxc, hxk⟩ := by simpa using List.mem_filter.mp hx
        by_cases hxt : x ∈ s.player_number :: A
        · rcases List.mem_cons.mp hxt with rfl | hxA
          · exact absurd hxc hcself
          · exact List.mem_append.mpr (Or.inl hxA)
        · refine List.mem_append.mpr (Or.inr ?_)
          simp only [List.mem_filter, decide_eq_true_eq]
          exact ⟨hxc, hxt, hxk⟩
      have hDnd : ((sortByKey s.suspicion (candidates s)).filter
          (fun p => p ∉ s.known_spies)).Nodup := hcnd.filter _
      have hDle := (hDnd.subperm hDsub).length_le
      rw [List.length_append] at hDle
      have hDlen : ((sortByKey s.suspicion (candidates s)).filter
            (fun p => p ∉ s.known_spies)).length
          = (((candidates s)).filter (fun p => p ∉ s.known_spies)).length :=
        (hcp.filter _).length_eq
      rw [hDlen] at hDle
      rw [hB] at hBlen
      rw [List.length_take, hBlen]
      simp only [List.length_cons] at hDle hBlen ⊢
      omega
  · rw [hpe, ht1, if_neg hcase]
    rw [List.take_of_length_le (by omega)]
    exact ⟨ht1nd, List.mem_cons_self _ _, by omega, fun _ => by omega⟩

theorem propose_spy_props (s : AgentState) (ts br : ℕ)
    (cand nsc : List ℕ) (hts : 1 ≤ ts) (hspy : s.is_spy_player = true)
    (hcand : List.Perm cand (candidates s))
    (hnsc : List.Perm nsc (cand.filter (fun p => p ∉ s.spy_list))) :
    (propose_mission s ts br cand nsc).Nodup ∧
    s.player_number ∈ propose_mission s ts br cand nsc ∧
    (propose_mission s ts br cand nsc).length ≤ ts ∧
    (ts ≤ 1 + min (br - 1) ((cand.filter (fun p => p ∈ s.spy_list)).length)
        + nsc.length →
      (propose_mission s ts br cand nsc).length = ts) := by
  have hpe : propose_mission s ts br cand nsc
      = (fillLoop ts nsc
          (spyLoop s.spy_list ts br cand ([s.player_number], 1)).1).take ts := by
    simp only [propose_mission, hspy, if_true]
  have hcnd : cand.Nodup := hcand.nodup_iff.mpr (candidates_nodup s)
  have hcself : s.player_number ∉ cand :=
    fun h => self_not_mem_candidates s (hcand.mem_iff.mp h)
  obtain ⟨A, hA, hAsub, hAsl⟩ :=
    spyLoop_decomp s.spy_list ts br cand [s.player_number] 1
  have hAc : ∀ x ∈ A, x ∈ cand := fun x hx => hAsub.subset hx
  have hAnd : A.Nodup := hAsub.nodup hcnd
  have hAself : s.player_number ∉ A := fun h => hcself (hAc _ h)
  have ht1nd : (s.player_number :: A).Nodup := List.nodup_cons.mpr ⟨hAself, hAnd⟩
  have ht1le : (s.player_number :: A).length ≤ ts := by
    have h := spyLoop_length_le s.spy_list ts br cand [s.player_number] 1
    rw [hA] at h
    simpa using h.trans_eq (by simp [Nat.max_eq_right hts])
  have hnscnd : nsc.Nodup := hnsc.nodup_iff.mpr (hcnd.filter _)
  obtain ⟨B, hB, hBsub, hBlen⟩ := fillLoop_spec ts nsc (s.player_number :: A)
    ht1le
  have hBprop : ∀ x ∈ B, x ∈ cand ∧ x ∉ s.spy_list := by
    intro x hx
    have := hnsc.mem_iff.mp (hBsub.subset hx)
    simpa using List.mem_filter.mp this
  have hdisj : List.Disjoint (s.player_number :: A) B := by
    intro a ha hb
    rcases List.mem_cons.mp ha with rfl | haA
    · exact hcself (hBprop _ hb).1
    · exact (hBprop _ hb).2 (hAsl _ haA)
  have hA2 : (spyLoop s.spy_list ts br cand ([s.player_number], 1)).1
      = s.player_number :: A := hA
  rw [hpe, hA2, hB]
  have ht2nd : ((s.player_number :: A) ++ B).Nodup :=
    ht1nd.append (hBsub.nodup hnscnd) hdisj
  refine ⟨ht2nd.sublist (List.take_sublist _ _), ?_, ?_, ?_⟩
  · exact mem_take_head _ _ _ hts
  · simp [List.length_take]
  · intro hsuff
    have hlow := spyLoop_length_lower s.spy_list ts br cand [s.player_number] 1
    rw [hA] at hlow
    rw [hB] at hBlen
    rw [List.length_take]
    simp only [List.length_append, List.length_cons, List.length_singleton,
      List.length_nil] at hlow hBlen ht1le ⊢
    omega

/-- C1 counterexample: in the reachable loyalist state `confirmedState`
(3 players, self = 0, player 1 confirmed as infiltrator),
`propose_mission(3, 1)` with valid `teamSize = numberOfPlayers = 3`
returns only the 2 indices `[0, 2]`: both selection passes skip confirmed
infiltrators, so the returned team is short of `teamSize`. -/
theorem C1_counterexample :
    propose_mission confirmedState 3 1 [] [] = [0, 2] ∧
    confirmedState.number_of_players = 3 ∧
    confirmedState.is_spy_player = false ∧
    ¬ (propose_mission confirmedState 3 1 [] []).length = 3 := by
  norm_num [propose_mission, confirmedState, mission_outcome, new_game,
    missionFailLoop, addKnown, Function.update, candidates, sortByKey,
    insertByKey, loyalLoop1, fillLoop, failedIn, List.range_succ]

/-- C1 (amended): for valid `teamSize ≥ 1`, in both roles and for every
state and every shuffle outcome, `propose_mission` returns a
duplicate-free list of **at most** `teamSize` indices that always contains
the agent's own index; the length is exactly `teamSize` whenever enough
eligible candidates exist — in the infiltrator role
`teamSize ≤ 1 + min(betrayalsRequired - 1, #co-infiltrators) +
#non-infiltrator others`, in the loyalist role `teamSize ≤ 1 +
#(others outside known_infiltrators)`.  (The original "always exactly
teamSize" is false: both branches can return a short team — see the
counterexample.) -/
theorem C1_propose_mission_team (s : AgentState)
    (team_size betrayals_required : ℕ) (cand nonSpyCand : List ℕ)
    (hcand : List.Perm cand (candidates s))
    (hnsc : List.Perm nonSpyCand (cand.filter (fun p => p ∉ s.spy_list)))
    (hts : 1 ≤ team_size) :
    (propose_mission s team_size betrayals_required cand nonSpyCand).Nodup ∧
    s.player_number
      ∈ propose_mission s team_size betrayals_required cand nonSpyCand ∧
    (propose_mission s team_size betrayals_required cand nonSpyCand).length
      ≤ team_size ∧
    ((s.is_spy_player = true →
        team_size ≤ 1 + min (betrayals_required - 1)
          ((cand.filter (fun p => p ∈ s.spy_list)).length)
          + nonSpyCand.length) →
      (s.is_spy_player = false →
        team_size ≤ 1
          + ((candidates s).filter (fun p => p ∉ s.known_spies)).length) →
      (propose_mission s team_size betrayals_required cand nonSpyCand).length
        = team_size) := by
  by_cases hspy : s.is_spy_player
  · obtain ⟨hnodup, hmem, hle, hsuf⟩ :=
      propose_spy_props s team_size betrayals_required cand nonSpyCand hts
        hspy hcand hnsc
    exact ⟨hnodup, hmem, hle, fun h1 _ => hsuf (h1 hspy)⟩
  · have hspy2 : s.is_spy_player = false := by simpa using hspy
    obtain ⟨hnodup, hmem, hle, hsuf⟩ :=
      propose_loyal_props s team_size betrayals_required cand nonSpyCand hts
        hspy2
    exact ⟨hnodup, hmem, hle, fun _ h2 => hsuf (h2 hspy2)⟩

/-- Witness for C1 (amended) at a concrete input: a fresh 3-player
loyalist proposing a team of 2 returns exactly `[0, 1]` — distinct, self
included, exactly `teamSize` long. -/
theorem C1_propose_mission_team_witness :
    propose_mission (new_game 3 0 []) 2 1 [1, 2] [1, 2] = [0, 1] ∧
    (propose_mission (new_game 3 0 []) 2 1 [1, 2] [1, 2]).length = 2 := by
  constructor
  · norm_num [propose_mission, new_game, candidates, sortByKey, insertByKey,
      loyalLoop1, fillLoop, failedIn, List.range_succ]
  · exact (C1_propose_mission_team (new_game 3 0 []) 2 1 [1, 2] [1, 2]
      (by decide) (by decide) (by decide)).2.2.2
      (fun h => absurd h (by decide)) (fun _ => by decide)

end Resistance
